import Mathlib

/-!
Verification of the effect-funny-radio streaming pipeline.

The definitions below are shallow embeddings of the pipeline's core
components, translated from the repository sources:

* `batchByBytes` — the Byte Batcher (`src/src/AudioSource.ts`,
  `src/openai_realtime_effect.ts`): a `Stream.mapAccum` over incoming byte
  chunks that concatenates buffered chunks into one frame once the buffered
  size reaches `BATCH_THRESHOLD`, followed by `Stream.filterMap`.
* the Duty-Cycle Controller (`src/src/AudioProcessor.ts`,
  `src/unnamed/part_003` `processAudio`): per-frame append / commit /
  response.create decisions driven by `accumulatedBytes` and
  `bytesSinceLastCommit`.
* the Broadcaster (`src/go/broadcast.go`): subscriber registry with
  buffered channels, non-blocking publish, close.
* the Realtime connection client (`src/go/broadcast.go`
  `NewOpenAIRealtime` / `readLoop`, `src/unnamed/part_005`): retry with
  exponential backoff, session-update-first ordering, server-event to
  broadcast-message mapping.

Bytes are modelled as `Nat`, chunks as `List Nat`.
-/

namespace RadioPipeline

/-- Constant from `src/src/AudioSource.ts` line 23: `24000 * 2`
(24 kHz, 16-bit mono PCM). -/
def BYTES_PER_SECOND : Nat := 24000 * 2

/-- Constant from `src/src/AudioSource.ts` line 24:
`Math.floor(BYTES_PER_SECOND / 50)` (= 960). -/
def BATCH_THRESHOLD : Nat := BYTES_PER_SECOND / 50

/-- Concatenation of a list of byte chunks (`Buffer.concat`). -/
def concatAll (l : List (List Nat)) : List Nat :=
  l.foldr (fun a b => a ++ b) []

/-- Accumulator state of the Byte Batcher: the ordered buffer of pending
chunks and its cached total size (`{ buf: [] as Uint8Array[], size: 0 }`). -/
structure BatchState where
  buf : List (List Nat)
  size : Nat
  deriving Repr, DecidableEq

/-- One `Stream.mapAccum` step of `batchByBytes` (`AudioSource.ts` lines
40–45): if the buffered size plus the incoming chunk reaches
`BATCH_THRESHOLD`, emit `Buffer.concat([...s.buf, chunk])` and reset the
accumulator; otherwise push the chunk and emit nothing. -/
def batchStep (s : BatchState) (chunk : List Nat) : BatchState × Option (List Nat) :=
  let size := s.size + chunk.length
  if size ≥ BATCH_THRESHOLD then
    (⟨[], 0⟩, some (concatAll (s.buf ++ [chunk])))
  else
    (⟨s.buf ++ [chunk], size⟩, none)

/-- Run the batcher's `mapAccum` from a given state over a finite list of
chunks, collecting the emitted frames (`Stream.filterMap` keeps exactly the
`some` outputs). Returns the final accumulator state and the frames. -/
def batchRunFrom (s : BatchState) : List (List Nat) → BatchState × List (List Nat)
  | [] => (s, [])
  | c :: cs =>
    let p := batchStep s c
    let r := batchRunFrom p.1 cs
    (r.1, p.2.toList ++ r.2)

/-- The frames `batchByBytes` emits on a finite chunk list: the output of
the `mapAccum`/`filterMap` pipeline started from the empty accumulator. -/
def batchByBytes (chunks : List (List Nat)) : List (List Nat) :=
  (batchRunFrom ⟨[], 0⟩ chunks).2

/-- The buffer still carried by the batcher when the input ends. -/
def batchRemainder (chunks : List (List Nat)) : List (List Nat) :=
  (batchRunFrom ⟨[], 0⟩ chunks).1.buf

/-- The cached size field is the byte count of the carried buffer. -/
def sizeConsistent (s : BatchState) : Prop :=
  s.size = (s.buf.map List.length).sum

/-- Constant from `src/src/AudioProcessor.ts` line 9: request a response
after 15 s of audio (= 720000 bytes). -/
def TARGET_BYTES : Nat := 15 * BYTES_PER_SECOND

/-- Constant from `src/src/AudioProcessor.ts` line 10: commit the buffer
every 3 s of audio (= 144000 bytes). -/
def COMMIT_BYTES : Nat := 3 * BYTES_PER_SECOND

/-- Outbound actions the Duty-Cycle Controller issues against the realtime
connection for one frame: `appendAudio` (input_audio_buffer.append),
`commit` (input_audio_buffer.commit), `createResponse` (response.create). -/
inductive DCAction where
  | appendAudio (len : Nat)
  | commit
  | createResponse
  deriving Repr, DecidableEq

/-- Controller state (`accumulatedBytes`, `bytesSinceLastCommit` refs in
`AudioProcessor.ts`). -/
structure DCState where
  acc : Nat
  since : Nat
  deriving Repr, DecidableEq

/-- One frame of the duty-cycle loop (`AudioProcessor.ts` lines 59–83):
always append; then if `since ≥ COMMIT_BYTES ∧ acc < TARGET_BYTES` commit
and reset `since`; then if `acc ≥ TARGET_BYTES` commit, create a response,
and reset both counters. The two guards are mutually exclusive. -/
def dcStep (s : DCState) (len : Nat) : DCState × List DCAction :=
  let acc := s.acc + len
  let since := s.since + len
  if COMMIT_BYTES ≤ since ∧ acc < TARGET_BYTES then
    (⟨acc, 0⟩, [.appendAudio len, .commit])
  else if TARGET_BYTES ≤ acc then
    (⟨0, 0⟩, [.appendAudio len, .commit, .createResponse])
  else
    (⟨acc, since⟩, [.appendAudio len])

/-- Run the controller over a list of frame lengths, concatenating the
per-frame action lists. -/
def dcRunFrom (s : DCState) : List Nat → DCState × List DCAction
  | [] => (s, [])
  | len :: rest =>
    let p := dcStep s len
    let r := dcRunFrom p.1 rest
    (r.1, p.2 ++ r.2)

/-- The controller's full action trace from the initial `{0,0}` state. -/
def dcRun (frames : List Nat) : List DCAction :=
  (dcRunFrom ⟨0, 0⟩ frames).2

/-- Number of `response.create` actions in a trace. -/
def createCount (l : List DCAction) : Nat :=
  l.count .createResponse

/-- Number of checkpoint-only commits in a trace: commits not immediately
followed by a `response.create`. -/
def commitOnlyCount : List DCAction → Nat
  | .commit :: .createResponse :: rest => commitOnlyCount rest
  | .commit :: rest => 1 + commitOnlyCount rest
  | _ :: rest => commitOnlyCount rest
  | [] => 0

/-- Whether an action is a `response.create`. -/
def isCreate : DCAction → Bool
  | .createResponse => true
  | _ => false

/-- Whether an action is a `commit`. -/
def isCommit : DCAction → Bool
  | .commit => true
  | _ => false

/-- Helper scanning a trace with the previous action at hand: every
`response.create` must directly follow a `commit`. -/
def commitBeforeCreateAux : DCAction → List DCAction → Bool
  | _, [] => true
  | prev, a :: rest => (!(isCreate a) || isCommit prev) && commitBeforeCreateAux a rest

/-- Every `response.create` in the trace is immediately preceded by a
`commit` (and the trace does not start with a `response.create`). -/
def commitBeforeCreate : List DCAction → Bool
  | [] => true
  | a :: rest => !(isCreate a) && commitBeforeCreateAux a rest

/-- Outbound messages published to subscribers (`BroadcastMessage` in
`src/go/broadcast.go` / `Messages.js`). -/
inductive BroadcastMessage where
  | delta (responseId text : String)
  | complete (responseId : String)
  | error (message : String)
  deriving Repr, DecidableEq

/-- Capacity of a subscriber's delivery channel
(`make(chan BroadcastMessage, 64)` in `broadcast.go` line 27). -/
def CHANNEL_CAPACITY : Nat := 64

/-- A subscriber's delivery channel: its buffered messages and whether it
has been closed. -/
structure BChan where
  buffer : List BroadcastMessage
  isClosed : Bool
  deriving Repr, DecidableEq

/-- The Broadcaster (`broadcast.go` lines 7–12): registry of subscriber
channels keyed by id, the next fresh id, and the closed flag. -/
structure Broadcaster where
  subscribers : List (Nat × BChan)
  nextID : Nat
  shutdownFlag : Bool
  deriving Repr, DecidableEq

/-- Constructor `NewBroadcaster` (`broadcast.go` lines 14–18). -/
def Broadcaster.new : Broadcaster := ⟨[], 0, false⟩

/-- Go `Subscribe` (`broadcast.go` lines 23–41): registers a fresh buffered
channel under `nextID` and returns its id (the delivery handle). The Go
code consults no flag here. -/
def Broadcaster.Subscribe (b : Broadcaster) : Broadcaster × Nat :=
  (⟨b.subscribers ++ [(b.nextID, ⟨[], false⟩)], b.nextID + 1, b.shutdownFlag⟩, b.nextID)

/-- Go `Publish` (`broadcast.go` lines 45–56): for each registered channel, a
`select` with a `default` arm — enqueue the message if the buffer has room,
otherwise drop it for that subscriber. -/
def Broadcaster.Publish (b : Broadcaster) (m : BroadcastMessage) : Broadcaster :=
  { b with
    subscribers := b.subscribers.map fun p =>
      (p.1,
        if p.2.buffer.length < CHANNEL_CAPACITY then
          { p.2 with buffer := p.2.buffer ++ [m] }
        else
          p.2) }

/-- Go `Close` (`broadcast.go` lines 59–71): if already closed do nothing,
otherwise mark closed and deregister (and close) every channel. -/
def Broadcaster.Close (b : Broadcaster) : Broadcaster :=
  if b.shutdownFlag then b else ⟨[], b.nextID, true⟩

/-- Look up the channel registered under a subscription id. -/
def lookupChan (b : Broadcaster) (id : Nat) : Option BChan :=
  b.subscribers.lookup id

/-- Inbound server events (`ServerEvent` union in
`src/openai_realtime_effect.ts` lines 30–34 / `Messages.js`): text delta,
response done, error, or any other tag (ignored). -/
inductive ServerEvent where
  | outputTextDelta (response_id delta : String)
  | responseDone (id status : String)
  | errorEvent (message : String)
  | otherEvent (tag : String)
  deriving Repr, DecidableEq

/-- Handler `handleMessage` (`src/unnamed/part_005` lines 106–130): the mapping
from recognized server events to broadcast messages; the catch-all arm
publishes nothing. -/
def handleMessage : ServerEvent → Option BroadcastMessage
  | .outputTextDelta rid d => some (.delta rid d)
  | .responseDone i _ => some (.complete i)
  | .errorEvent m => some (.error m)
  | .otherEvent _ => none

/-- Dispatching one inbound event to the unbounded pubsub
(`PubSub.publish` in `part_005`): every live subscriber queue receives the
mapped message; unrecognized events publish nothing. -/
def dispatchEvent (ev : ServerEvent) (subs : List (List BroadcastMessage)) :
    List (List BroadcastMessage) :=
  match handleMessage ev with
  | none => subs
  | some m => subs.map fun q => q ++ [m]

/-- Outcome of the connect-with-retry loop: whether it ended connected, the
backoff delays waited (in seconds), and how many dial attempts were made. -/
structure RetryResult where
  connected : Bool
  delays : List Nat
  attemptsMade : Nat
  deriving Repr, DecidableEq

/-- The retry loop of `NewOpenAIRealtime` (`broadcast.go` lines 107–122):
up to `fuel` attempts; a successful dial breaks out, a failed dial waits
`backoff` seconds and doubles it. `ok n` tells whether dial attempt `n`
succeeds. -/
def retryLoop (ok : Nat → Bool) : Nat → Nat → Nat → RetryResult
  | 0, _, _ => ⟨false, [], 0⟩
  | fuel + 1, attempt, backoff =>
    if ok attempt then ⟨true, [], 1⟩
    else
      let r := retryLoop ok fuel (attempt + 1) (backoff * 2)
      ⟨r.connected, backoff :: r.delays, r.attemptsMade + 1⟩

/-- The concrete loop: max 5 attempts, backoff starting at 1 second
(`broadcast.go` lines 108–109). -/
def connectWithRetry (ok : Nat → Bool) : RetryResult :=
  retryLoop ok 5 0 1

/-- Messages sent on the wire to the inference service. -/
inductive WireMsg where
  | sessionUpdate
  | appendMsg (audio : String)
  | commitMsg
  | createMsg
  deriving Repr, DecidableEq

/-- Application-level requests against the realtime client
(`appendAudio` / `commitBuffer` / `requestResponse` in `part_005`). -/
inductive ClientRequest where
  | appendAudio (audio : String)
  | commitBuffer
  | requestResponse
  deriving Repr, DecidableEq

/-- The wire message a client request sends. -/
def wireOf : ClientRequest → WireMsg
  | .appendAudio a => .appendMsg a
  | .commitBuffer => .commitMsg
  | .requestResponse => .createMsg

/-- Events seen by the client: an application request, or the loss/release
of the current connection (which resets `connectionRef` to null). -/
inductive ClientEvent where
  | request (r : ClientRequest)
  | connectionLost
  deriving Repr, DecidableEq

/-- Per-connection send traces of the client: the traces of connections
already torn down, and the trace of the current connection if one is up. -/
structure ClientTraces where
  finished : List (List WireMsg)
  current : Option (List WireMsg)
  deriving Repr, DecidableEq

/-- One step of the client (`part_005` lines 55–151, `broadcast.go` lines
98–163): a request with no live connection first connects — and `connect`
sends the `session.update` before anything else — then sends the request's
message; a request on a live connection just sends; a connection loss
archives the current trace. -/
def clientStep (st : ClientTraces) : ClientEvent → ClientTraces
  | .connectionLost =>
    match st.current with
    | none => st
    | some t => ⟨st.finished ++ [t], none⟩
  | .request r =>
    match st.current with
    | none => ⟨st.finished, some [WireMsg.sessionUpdate, wireOf r]⟩
    | some t => ⟨st.finished, some (t ++ [wireOf r])⟩

/-- Run the client over a list of events, starting disconnected. -/
def clientRun (evs : List ClientEvent) : ClientTraces :=
  evs.foldl clientStep ⟨[], none⟩

/-- All per-connection traces, finished ones first, then the live one. -/
def allTraces (st : ClientTraces) : List (List WireMsg) :=
  st.finished ++ st.current.toList

/-- A trace whose first message is the session configuration and which
contains no further session configuration. -/
def sessionUpdateFirst (t : List WireMsg) : Prop :=
  ∃ rest, t = WireMsg.sessionUpdate :: rest ∧ WireMsg.sessionUpdate ∉ rest

/-- Every per-connection trace, finished or live, starts with the session
configuration. -/
def goodTraces (st : ClientTraces) : Prop :=
  (∀ t ∈ st.finished, sessionUpdateFirst t) ∧
  ∀ t ∈ st.current.toList, sessionUpdateFirst t

/-- How the streaming phase of `processAudio` ended: the source was cleared
or changed (the `SourceClearedError` raised before the frame's append and
caught by `catchTag`, a clean exit), or the input stream ended. -/
inductive ExitKind where
  | sourceCleared
  | streamEnded
  deriving Repr, DecidableEq

/-- What the orchestrator observes for one incoming frame: the source
selection read just before the frame, the frame's byte length, and whether
the sends to the connection succeed for this frame. -/
structure FrameInput where
  selection : Option Nat
  len : Nat
  sendOk : Bool
  deriving Repr, DecidableEq

/-- A connection-level failure while forwarding a frame. -/
inductive ConnFailure where
  | sendFailed
  deriving Repr, DecidableEq

/-- The per-frame loop of `processAudio` (`src/src/AudioProcessor.ts`
lines 46–91): before each frame, re-read the source selection and stop
cleanly if it is no longer the selected source (the caught
`SourceClearedError`); otherwise forward the frame through the duty-cycle
step (a failing send is a connection error). Returns the issued actions,
the final controller state, and how the phase ended. -/
def processAudio (sourceId : Nat) (s : DCState) :
    List FrameInput → Except ConnFailure (List DCAction × DCState × ExitKind)
  | [] => .ok ([], s, .streamEnded)
  | f :: rest =>
    if f.selection ≠ some sourceId then
      .ok ([], s, .sourceCleared)
    else if f.sendOk = false then
      .error .sendFailed
    else
      let p := dcStep s f.len
      match processAudio sourceId p.1 rest with
      | .error e => .error e
      | .ok (acts, s', ek) => .ok (p.2 ++ acts, s', ek)

/-!
## Theorems
-/

theorem concatAll_nil : concatAll [] = [] := rfl

theorem concatAll_cons (c : List Nat) (l : List (List Nat)) :
    concatAll (c :: l) = c ++ concatAll l := rfl

theorem concatAll_append (l₁ l₂ : List (List Nat)) :
    concatAll (l₁ ++ l₂) = concatAll l₁ ++ concatAll l₂ := by
  induction l₁ with
  | nil => simp [concatAll_nil]
  | cons c l ih => simp [concatAll_cons, ih]

theorem length_concatAll (l : List (List Nat)) :
    (concatAll l).length = (l.map List.length).sum := by
  induction l with
  | nil => rfl
  | cons c l ih => simp [concatAll_cons, ih]

theorem batchRunFrom_cons (s : BatchState) (c : List Nat) (cs : List (List Nat)) :
    batchRunFrom s (c :: cs) =
      ((batchRunFrom (batchStep s c).1 cs).1,
        (batchStep s c).2.toList ++ (batchRunFrom (batchStep s c).1 cs).2) := rfl

/-- Conservation along the run: emitted frames plus the carried buffer hold
exactly the initial buffer followed by all input chunks, in order. -/
theorem batchRunFrom_conservation (chunks : List (List Nat)) :
    ∀ s : BatchState,
      concatAll (batchRunFrom s chunks).2 ++ concatAll (batchRunFrom s chunks).1.buf =
        concatAll s.buf ++ concatAll chunks := by
  induction chunks with
  | nil => intro s; simp [batchRunFrom, concatAll_nil]
  | cons c cs ih =>
    intro s
    rw [batchRunFrom_cons]
    by_cases h : s.size + c.length ≥ BATCH_THRESHOLD
    · simp only [batchStep, h, if_pos]
      have := ih (⟨[], 0⟩ : BatchState)
      simp only [Option.toList_some, concatAll_cons, concatAll_append, concatAll_nil,
        List.append_nil] at this ⊢
      rw [List.append_assoc, this]
      simp [concatAll_cons, concatAll_nil]
    · simp only [batchStep, h, if_neg, not_false_iff]
      have := ih (⟨s.buf ++ [c], s.size + c.length⟩ : BatchState)
      simp only [Option.toList_none, List.nil_append] at this ⊢
      rw [this]
      simp [concatAll_append, concatAll_cons, concatAll_nil]

/-- C1 (counterexample): the claim fails on the code. A single 1-byte chunk
never reaches `BATCH_THRESHOLD` (= 960), the `mapAccum` has no end-of-stream
flush, and `filterMap` drops the `Option.none` outputs — so `batchByBytes`
emits no frame at all and the chunk is lost, refuting "the concatenation of
all emitted frames equals the concatenation of all input chunks". -/
theorem batchByBytes_drops_tail_at_eos :
    ¬ concatAll (batchByBytes [[7]]) = concatAll [[7]] := by decide

/-- C1 (amended): the concatenation of all frames emitted by `batchByBytes`,
followed by the contents of the accumulation buffer still carried at
end-of-input, equals the concatenation of all input chunks, in order; no
chunk is reordered, but on upstream end-of-stream a non-empty accumulation
buffer is NOT emitted as a final short frame — it is silently discarded, so
the emitted frames are only a prefix of the input bytes. -/
theorem batchByBytes_conservation (chunks : List (List Nat)) :
    concatAll (batchByBytes chunks) ++ concatAll (batchRemainder chunks) =
      concatAll chunks := by
  have h := batchRunFrom_conservation chunks ⟨[], 0⟩
  simpa [batchByBytes, batchRemainder, concatAll_nil] using h

/-- Invariant preservation along the batcher run: starting from a
size-consistent state holding fewer than `BATCH_THRESHOLD` buffered bytes,
the final state is again size-consistent and below the threshold, and every
emitted frame has length at least `BATCH_THRESHOLD` and is completed by
some input chunk `c` with frame length < `BATCH_THRESHOLD + c.length`. -/
theorem batchRunFrom_inv (chunks : List (List Nat)) :
    ∀ s : BatchState, sizeConsistent s → s.size < BATCH_THRESHOLD →
      sizeConsistent (batchRunFrom s chunks).1 ∧
      (batchRunFrom s chunks).1.size < BATCH_THRESHOLD ∧
      ∀ f ∈ (batchRunFrom s chunks).2,
        BATCH_THRESHOLD ≤ f.length ∧
        ∃ c ∈ chunks, f.length < BATCH_THRESHOLD + c.length := by
  induction chunks with
  | nil =>
    intro s hc hlt
    refine ⟨hc, hlt, ?_⟩
    intro f hf
    simp [batchRunFrom] at hf
  | cons c cs ih =>
    intro s hc hlt
    unfold sizeConsistent at hc
    rw [batchRunFrom_cons]
    by_cases h : s.size + c.length ≥ BATCH_THRESHOLD
    · simp only [batchStep, h, if_pos]
      have hrec := ih (⟨[], 0⟩ : BatchState) rfl (by decide)
      refine ⟨hrec.1, hrec.2.1, ?_⟩
      intro f hf
      simp only [Option.toList_some, List.singleton_append, List.mem_cons] at hf
      rcases hf with rfl | hf
      · have hlen : (concatAll (s.buf ++ [c])).length = s.size + c.length := by
          rw [length_concatAll]
          simp [hc]
        constructor
        · rw [hlen]; exact h
        · exact ⟨c, List.mem_cons_self c cs, by
            rw [hlen]; exact Nat.add_lt_add_right hlt c.length⟩
      · rcases hrec.2.2 f hf with ⟨hge, d, hd, hub⟩
        exact ⟨hge, d, List.mem_cons_of_mem c hd, hub⟩
    · simp only [batchStep, h, if_neg, not_false_iff]
      push_neg at h
      have hc' : sizeConsistent (⟨s.buf ++ [c], s.size + c.length⟩ : BatchState) := by
        unfold sizeConsistent
        simp [hc]
      have hrec := ih _ hc' h
      refine ⟨hrec.1, hrec.2.1, ?_⟩
      intro f hf
      simp only [Option.toList_none, List.nil_append] at hf
      rcases hrec.2.2 f hf with ⟨hge, d, hd, hub⟩
      exact ⟨hge, d, List.mem_cons_of_mem c hd, hub⟩

/-- C10: after consuming any input, the batcher's carried buffer holds
strictly fewer than `BATCH_THRESHOLD` bytes (so, instantiating the input at
every prefix, the bound holds after each chunk); and every frame
`batchByBytes` emits is non-empty, has length at least `BATCH_THRESHOLD`,
and is strictly shorter than `BATCH_THRESHOLD` plus the length of some
input chunk (the one whose arrival completed it). -/
theorem batchByBytes_frame_bounds (chunks : List (List Nat)) (f : List Nat)
    (hf : f ∈ batchByBytes chunks) :
    (concatAll (batchRemainder chunks)).length < BATCH_THRESHOLD ∧
    0 < f.length ∧ BATCH_THRESHOLD ≤ f.length ∧
    ∃ c ∈ chunks, f.length < BATCH_THRESHOLD + c.length := by
  have h := batchRunFrom_inv chunks ⟨[], 0⟩ rfl (by decide)
  have h1 := h.1
  unfold sizeConsistent at h1
  have hrem : (concatAll (batchRemainder chunks)).length < BATCH_THRESHOLD := by
    rw [length_concatAll]
    simp only [batchRemainder]
    rw [← h1]
    exact h.2.1
  rcases h.2.2 f hf with ⟨hge, c, hc, hub⟩
  exact ⟨hrem, lt_of_lt_of_le (by decide) hge, hge, c, hc, hub⟩

set_option maxRecDepth 10000 in
/-- Witness for the frame-bounds theorem at a concrete input: one chunk of
exactly 960 bytes is emitted unchanged as one frame. -/
theorem batchByBytes_frame_bounds_witness :
    List.replicate 960 0 ∈ batchByBytes [List.replicate 960 0] ∧
    ((concatAll (batchRemainder [List.replicate 960 0])).length < BATCH_THRESHOLD ∧
      0 < (List.replicate 960 (0 : Nat)).length ∧
      BATCH_THRESHOLD ≤ (List.replicate 960 (0 : Nat)).length ∧
      ∃ c ∈ [List.replicate 960 (0 : Nat)],
        (List.replicate 960 (0 : Nat)).length < BATCH_THRESHOLD + c.length) :=
  ⟨by decide, batchByBytes_frame_bounds [List.replicate 960 0]
    (List.replicate 960 0) (by decide)⟩

theorem dcRunFrom_cons (s : DCState) (len : Nat) (rest : List Nat) :
    dcRunFrom s (len :: rest) =
      ((dcRunFrom (dcStep s len).1 rest).1,
        (dcStep s len).2 ++ (dcRunFrom (dcStep s len).1 rest).2) := rfl

theorem createCount_append (l₁ l₂ : List DCAction) :
    createCount (l₁ ++ l₂) = createCount l₁ + createCount l₂ :=
  List.count_append ..

/-- The three mutually exclusive outcomes of one duty-cycle step, with the
exact state update and action block of each. -/
theorem dcStep_cases (s : DCState) (len : Nat) :
    (COMMIT_BYTES ≤ s.since + len ∧ s.acc + len < TARGET_BYTES ∧
       dcStep s len = (⟨s.acc + len, 0⟩, [.appendAudio len, .commit])) ∨
    (TARGET_BYTES ≤ s.acc + len ∧
       dcStep s len = (⟨0, 0⟩, [.appendAudio len, .commit, .createResponse])) ∨
    (s.since + len < COMMIT_BYTES ∧ s.acc + len < TARGET_BYTES ∧
       dcStep s len = (⟨s.acc + len, s.since + len⟩, [.appendAudio len])) := by
  unfold dcStep
  by_cases h1 : COMMIT_BYTES ≤ s.since + len ∧ s.acc + len < TARGET_BYTES
  · exact Or.inl ⟨h1.1, h1.2, by simp [h1]⟩
  · by_cases h2 : TARGET_BYTES ≤ s.acc + len
    · exact Or.inr (Or.inl ⟨h2, by simp [h1, h2]⟩)
    · refine Or.inr (Or.inr ⟨?_, by omega, by simp [h1, h2]⟩)
      by_contra hc
      exact h1 ⟨by omega, by omega⟩

/-- Runs whose byte total keeps `accumulatedBytes` strictly below
`TARGET_BYTES` issue no `response.create`. -/
theorem dcRunFrom_no_create (frames : List Nat) :
    ∀ s : DCState, s.acc + frames.sum < TARGET_BYTES →
      createCount (dcRunFrom s frames).2 = 0 := by
  induction frames with
  | nil => intro s _; rfl
  | cons len rest ih =>
    intro s hlt
    rw [List.sum_cons] at hlt
    rw [dcRunFrom_cons, createCount_append]
    rcases dcStep_cases s len with ⟨h1, h2, heqs⟩ | ⟨h1, heqs⟩ | ⟨h1, h2, heqs⟩
    · rw [heqs]
      have hr := ih ⟨s.acc + len, 0⟩ (by simp; omega)
      simp only [hr]
      rfl
    · omega
    · rw [heqs]
      have hr := ih ⟨s.acc + len, s.since + len⟩ (by simp; omega)
      simp only [hr]
      rfl

/-- A run that starts below `TARGET_BYTES` and whose byte total brings
`accumulatedBytes` to exactly `TARGET_BYTES` issues exactly one
`response.create`. -/
theorem dcRunFrom_one_create (frames : List Nat) :
    ∀ s : DCState, s.acc < TARGET_BYTES → s.acc + frames.sum = TARGET_BYTES →
      createCount (dcRunFrom s frames).2 = 1 := by
  induction frames with
  | nil =>
    intro s hlt heq
    simp only [List.sum_nil, Nat.add_zero] at heq
    omega
  | cons len rest ih =>
    intro s hlt heq
    rw [List.sum_cons] at heq
    rw [dcRunFrom_cons, createCount_append]
    rcases dcStep_cases s len with ⟨h1, h2, heqs⟩ | ⟨h1, heqs⟩ | ⟨h1, h2, heqs⟩
    · rw [heqs]
      have hr := ih ⟨s.acc + len, 0⟩ h2 (by simp; omega)
      simp only [hr]
      rfl
    · rw [heqs]
      have hrest : rest.sum = 0 := by omega
      have hr := dcRunFrom_no_create rest ⟨0, 0⟩ (by
        simp only [hrest]
        show 0 + 0 < TARGET_BYTES
        decide)
      simp only [hr]
      rfl
    · rw [heqs]
      have hr := ih ⟨s.acc + len, s.since + len⟩ h2 (by simp; omega)
      simp only [hr]
      rfl

/-- In any duty-cycle trace suffix, every `response.create` directly
follows a `commit`, whatever action preceded the suffix. -/
theorem dcRunFrom_commitBeforeCreateAux (frames : List Nat) :
    ∀ (s : DCState) (prev : DCAction),
      commitBeforeCreateAux prev (dcRunFrom s frames).2 = true := by
  induction frames with
  | nil => intro s prev; rfl
  | cons len rest ih =>
    intro s prev
    rw [dcRunFrom_cons]
    rcases dcStep_cases s len with ⟨_, _, heqs⟩ | ⟨_, heqs⟩ | ⟨_, _, heqs⟩ <;>
      rw [heqs] <;>
      simp only [List.cons_append, List.nil_append, commitBeforeCreateAux,
        isCreate, isCommit, Bool.not_false, Bool.true_or, Bool.or_true,
        Bool.true_and] <;>
      exact ih _ _

/-- In the controller's full trace, every `response.create` is immediately
preceded by a `commit`. -/
theorem dcRun_commitBeforeCreate (frames : List Nat) :
    commitBeforeCreate (dcRun frames) = true := by
  cases frames with
  | nil => rfl
  | cons len rest =>
    show commitBeforeCreate (dcRunFrom ⟨0, 0⟩ (len :: rest)).2 = true
    rw [dcRunFrom_cons]
    rcases dcStep_cases ⟨0, 0⟩ len with ⟨_, _, heqs⟩ | ⟨_, heqs⟩ | ⟨_, _, heqs⟩ <;>
      rw [heqs] <;>
      simp only [List.cons_append, List.nil_append, commitBeforeCreate,
        commitBeforeCreateAux, isCreate, isCommit, Bool.not_false, Bool.true_or,
        Bool.or_true, Bool.true_and] <;>
      exact dcRunFrom_commitBeforeCreateAux rest _ _

/-- C2 (counterexample): the claim fails on the code as universally stated.
A single frame of 720000 bytes sums to exactly 720000 = TARGET_BYTES, yet
the controller issues zero intermediate checkpoint-only commits — not 4 —
because the trigger guard (`acc ≥ TARGET_BYTES`) preempts the checkpoint
guard (`acc < TARGET_BYTES`) on that one frame. -/
theorem dcRun_single_frame_not_four_commits :
    ([720000] : List Nat).sum = 720000 ∧
      ¬ commitOnlyCount (dcRun [720000]) = 4 := by decide

set_option maxRecDepth 100000 in
/-- C2 (amended): for every stream of frames whose lengths sum to exactly
720000 (= TARGET_BYTES, with COMMIT_BYTES = 144000), the controller issues
exactly one `response.create`, and every `response.create` is immediately
preceded by a `commit`; the number of intermediate checkpoint-only commits
depends on the framing and equals 4 for the canonical framing into 750
frames of `BATCH_THRESHOLD` = 960 bytes (it is 0 for a single 720000-byte
frame). -/
theorem dcRun_exact_target (frames : List Nat) (hsum : frames.sum = 720000) :
    createCount (dcRun frames) = 1 ∧
    commitBeforeCreate (dcRun frames) = true ∧
    (frames = List.replicate 750 960 → commitOnlyCount (dcRun frames) = 4) := by
  refine ⟨?_, dcRun_commitBeforeCreate frames, ?_⟩
  · refine dcRunFrom_one_create frames ⟨0, 0⟩ (by decide) ?_
    show 0 + frames.sum = TARGET_BYTES
    rw [hsum]
    rfl
  · intro h
    subst h
    decide

set_option maxRecDepth 100000 in
/-- Witness for the amended duty-cycle theorem at the canonical framing:
750 frames of 960 bytes. -/
theorem dcRun_exact_target_witness :
    (List.replicate 750 (960 : Nat)).sum = 720000 ∧
    (createCount (dcRun (List.replicate 750 960)) = 1 ∧
      commitBeforeCreate (dcRun (List.replicate 750 960)) = true ∧
      (List.replicate 750 (960 : Nat) = List.replicate 750 960 →
        commitOnlyCount (dcRun (List.replicate 750 960)) = 4)) :=
  ⟨by decide, dcRun_exact_target (List.replicate 750 960) (by decide)⟩

/-- C8: a duty-cycle step on a (necessarily non-empty) frame resets the
state to `{acc := 0, since := 0}` exactly when it fires a
`response.create`; a checkpoint-only step (a `commit` without a
`response.create`) resets `bytesSinceCheckpoint` to 0 but leaves
`accumulatedBytes` at its incremented, non-zero value. -/
theorem dcStep_trigger_reset (s : DCState) (len : Nat) (hlen : 0 < len) :
    (DCAction.createResponse ∈ (dcStep s len).2 ↔
      (dcStep s len).1 = ⟨0, 0⟩) ∧
    (DCAction.createResponse ∉ (dcStep s len).2 →
      DCAction.commit ∈ (dcStep s len).2 →
      (dcStep s len).1.since = 0 ∧ (dcStep s len).1.acc = s.acc + len ∧
        0 < (dcStep s len).1.acc) := by
  rcases dcStep_cases s len with ⟨h1, h2, heqs⟩ | ⟨h1, heqs⟩ | ⟨h1, h2, heqs⟩ <;>
    rw [heqs]
  · constructor
    · simp only [List.mem_cons, List.not_mem_nil, or_false, DCState.mk.injEq]
      constructor
      · rintro (h | h) <;> simp at h
      · rintro ⟨ha, -⟩
        exact absurd ha (by omega)
    · intro _ _
      refine ⟨rfl, rfl, ?_⟩
      show 0 < s.acc + len
      omega
  · constructor
    · simp
    · intro hnc _
      simp at hnc
  · constructor
    · simp only [List.mem_cons, List.not_mem_nil, or_false, DCState.mk.injEq]
      constructor
      · intro h; simp at h
      · rintro ⟨ha, -⟩
        exact absurd ha (by omega)
    · intro _ hc
      simp at hc

/-- Witness for the trigger-reset theorem: one 720000-byte frame from the
initial state fires the trigger and resets the state to `{0,0}`. -/
theorem dcStep_trigger_reset_witness :
    0 < 720000 ∧
    ((DCAction.createResponse ∈ (dcStep ⟨0, 0⟩ 720000).2 ↔
        (dcStep ⟨0, 0⟩ 720000).1 = ⟨0, 0⟩) ∧
      (DCAction.createResponse ∉ (dcStep ⟨0, 0⟩ 720000).2 →
        DCAction.commit ∈ (dcStep ⟨0, 0⟩ 720000).2 →
        (dcStep ⟨0, 0⟩ 720000).1.since = 0 ∧
          (dcStep ⟨0, 0⟩ 720000).1.acc = (⟨0, 0⟩ : DCState).acc + 720000 ∧
          0 < (dcStep ⟨0, 0⟩ 720000).1.acc)) :=
  ⟨by decide, dcStep_trigger_reset ⟨0, 0⟩ 720000 (by decide)⟩

/-- C3 (counterexample): the claim fails on the code. `Subscribe` never
consults the closed flag, so after `Close` a `Subscribe` registers a fresh
open channel under a fresh id — the subscription is found in the registry,
is not closed, and a subsequent `Publish` delivers to it: it behaves
exactly like a live subscription instead of failing or being closed. -/
theorem subscribe_after_close_is_live :
    lookupChan (Broadcaster.new.Close.Subscribe).1
        (Broadcaster.new.Close.Subscribe).2 = some ⟨[], false⟩ ∧
    lookupChan ((Broadcaster.new.Close.Subscribe).1.Publish (.error "x"))
        (Broadcaster.new.Close.Subscribe).2 = some ⟨[.error "x"], false⟩ := by
  decide

/-- C3 (amended): after `Close` of a live broadcaster, a subsequent
`Subscribe` silently succeeds as if the broadcaster were live: it registers
a fresh channel that is open (not closed, not failed) and that receives a
subsequently published message; the closed flag only makes `Close`
idempotent. -/
theorem subscribe_after_close_succeeds (b : Broadcaster) (m : BroadcastMessage)
    (hb : b.shutdownFlag = false) :
    lookupChan (b.Close.Subscribe).1 (b.Close.Subscribe).2 = some ⟨[], false⟩ ∧
    lookupChan ((b.Close.Subscribe).1.Publish m) (b.Close.Subscribe).2 =
      some ⟨[m], false⟩ := by
  unfold Broadcaster.Close
  rw [hb]
  simp [Broadcaster.Subscribe, Broadcaster.Publish, lookupChan, List.lookup,
    CHANNEL_CAPACITY]

/-- Witness for the subscribe-after-close theorem on a fresh broadcaster
and a concrete delta message. -/
theorem subscribe_after_close_succeeds_witness :
    Broadcaster.new.shutdownFlag = false ∧
    (lookupChan (Broadcaster.new.Close.Subscribe).1
        (Broadcaster.new.Close.Subscribe).2 = some ⟨[], false⟩ ∧
      lookupChan ((Broadcaster.new.Close.Subscribe).1.Publish
          (.delta "r1" "Bonjour")) (Broadcaster.new.Close.Subscribe).2 =
        some ⟨[.delta "r1" "Bonjour"], false⟩) :=
  ⟨rfl, subscribe_after_close_succeeds Broadcaster.new (.delta "r1" "Bonjour") rfl⟩

/-- C6: `Publish` is per-subscriber and non-blocking. Every registered
subscriber whose buffer has room receives exactly the published message
appended to its buffer; a subscriber whose buffer is full keeps its buffer
unchanged (the message is dropped for it alone); no subscriber is added or
removed, and `Publish` is a total function of the state — it returns
without waiting on any subscriber. -/
theorem publish_nonblocking (b : Broadcaster) (m : BroadcastMessage)
    (id : Nat) (ch : BChan) (hmem : (id, ch) ∈ b.subscribers) :
    (ch.buffer.length < CHANNEL_CAPACITY →
      (id, { ch with buffer := ch.buffer ++ [m] }) ∈ (b.Publish m).subscribers) ∧
    (CHANNEL_CAPACITY ≤ ch.buffer.length →
      (id, ch) ∈ (b.Publish m).subscribers) ∧
    (b.Publish m).subscribers.length = b.subscribers.length := by
  refine ⟨?_, ?_, ?_⟩
  · intro hlt
    unfold Broadcaster.Publish
    exact List.mem_map.mpr ⟨(id, ch), hmem, by simp [hlt]⟩
  · intro hge
    unfold Broadcaster.Publish
    refine List.mem_map.mpr ⟨(id, ch), hmem, ?_⟩
    have hfull : ¬ ch.buffer.length < CHANNEL_CAPACITY := by omega
    simp [hfull]
  · unfold Broadcaster.Publish
    simp

set_option maxRecDepth 10000 in
/-- Witness for the publish theorem: a broadcaster with one registered
empty channel; publishing appends the message to that channel. -/
theorem publish_nonblocking_witness :
    ((0 : Nat), (⟨[], false⟩ : BChan)) ∈
        (⟨[(0, ⟨[], false⟩)], 1, false⟩ : Broadcaster).subscribers ∧
    (((⟨[], false⟩ : BChan).buffer.length < CHANNEL_CAPACITY →
        (0, { (⟨[], false⟩ : BChan) with
          buffer := (⟨[], false⟩ : BChan).buffer ++ [BroadcastMessage.delta "r1" "x"] }) ∈
          ((⟨[(0, ⟨[], false⟩)], 1, false⟩ : Broadcaster).Publish
            (BroadcastMessage.delta "r1" "x")).subscribers) ∧
      (CHANNEL_CAPACITY ≤ (⟨[], false⟩ : BChan).buffer.length →
        (0, (⟨[], false⟩ : BChan)) ∈
          ((⟨[(0, ⟨[], false⟩)], 1, false⟩ : Broadcaster).Publish
            (BroadcastMessage.delta "r1" "x")).subscribers) ∧
      ((⟨[(0, ⟨[], false⟩)], 1, false⟩ : Broadcaster).Publish
          (BroadcastMessage.delta "r1" "x")).subscribers.length =
        (⟨[(0, ⟨[], false⟩)], 1, false⟩ : Broadcaster).subscribers.length) :=
  ⟨by decide,
    publish_nonblocking ⟨[(0, ⟨[], false⟩)], 1, false⟩
      (BroadcastMessage.delta "r1" "x") 0 ⟨[], false⟩ (by decide)⟩

/-- C4: the one-to-one mapping from recognized server events to broadcast
messages, and its fan-out: dispatching a recognized event appends exactly
the mapped message — `response.output_text.delta{response_id, delta}` ↦
`delta{responseId, text}`, `response.done{response.id}` ↦
`complete{responseId}`, `error{message}` ↦ `error{message}` — once to every
live subscriber's queue; in particular the inbound delta event with
response id "r1" and text "Bonjour" maps to exactly the broadcast
`delta "r1" "Bonjour"`. -/
theorem handleMessage_fanout (subs : List (List BroadcastMessage))
    (rid text i status msg : String) :
    dispatchEvent (.outputTextDelta rid text) subs =
      subs.map (fun q => q ++ [.delta rid text]) ∧
    dispatchEvent (.responseDone i status) subs =
      subs.map (fun q => q ++ [.complete i]) ∧
    dispatchEvent (.errorEvent msg) subs =
      subs.map (fun q => q ++ [.error msg]) ∧
    dispatchEvent (.otherEvent "ignored") subs = subs ∧
    handleMessage (.outputTextDelta "r1" "Bonjour") =
      some (.delta "r1" "Bonjour") :=
  ⟨rfl, rfl, rfl, rfl, rfl⟩

/-- C5: the connect-with-retry loop. If the first four dial attempts fail
and the fifth succeeds, exactly four backoff delays are waited — 1, 2, 4, 8
seconds, each double the previous, exponential from the 1-second base — and
the client ends connected after its fifth attempt. If all five attempts up
to the ceiling fail, the loop ends not connected (the caller receives the
terminal connection error) after exactly five attempts, with no further
retry. -/
theorem connectWithRetry_backoff (ok : Nat → Bool)
    (h4 : ∀ n, n < 4 → ok n = false) :
    (ok 4 = true →
      connectWithRetry ok = ⟨true, [1, 2, 4, 8], 5⟩ ∧
      List.Chain' (fun a b => 2 * a ≤ b) [1, 2, 4, 8]) ∧
    (ok 4 = false → connectWithRetry ok = ⟨false, [1, 2, 4, 8, 16], 5⟩) := by
  have h0 := h4 0 (by omega)
  have h1 := h4 1 (by omega)
  have h2 := h4 2 (by omega)
  have h3 := h4 3 (by omega)
  constructor
  · intro hok
    exact ⟨by simp [connectWithRetry, retryLoop, h0, h1, h2, h3, hok],
      by norm_num [List.chain'_cons]⟩
  · intro hok
    simp [connectWithRetry, retryLoop, h0, h1, h2, h3, hok]

/-- Witness for the backoff theorem: dials that succeed exactly on attempt
4 give the connected outcome with delays 1, 2, 4, 8; dials that always fail
exhaust all five attempts. -/
theorem connectWithRetry_backoff_witness :
    (∀ n, n < 4 → (fun k => decide (k = 4)) n = false) ∧
    (connectWithRetry (fun k => decide (k = 4)) = ⟨true, [1, 2, 4, 8], 5⟩ ∧
      List.Chain' (fun a b => 2 * a ≤ b) [1, 2, 4, 8]) ∧
    connectWithRetry (fun _ => false) = ⟨false, [1, 2, 4, 8, 16], 5⟩ :=
  ⟨by decide,
    (connectWithRetry_backoff (fun k => decide (k = 4)) (by decide)).1 (by decide),
    (connectWithRetry_backoff (fun _ => false) (fun _ _ => rfl)).2 rfl⟩

theorem wireOf_ne_sessionUpdate (r : ClientRequest) :
    wireOf r ≠ WireMsg.sessionUpdate := by
  cases r <;> simp [wireOf]

/-- One client step preserves the property that every per-connection trace
starts with the session configuration. -/
theorem clientStep_preserves_goodTraces (st : ClientTraces) (ev : ClientEvent)
    (h : goodTraces st) : goodTraces (clientStep st ev) := by
  cases ev with
  | connectionLost =>
    cases hc : st.current with
    | none => simpa [clientStep, hc] using h
    | some t =>
      refine ⟨?_, ?_⟩
      · intro u hu
        simp only [clientStep, hc, List.mem_append, List.mem_singleton] at hu
        rcases hu with hu | rfl
        · exact h.1 u hu
        · exact h.2 u (by simp [hc])
      · intro u hu
        simp [clientStep, hc] at hu
  | request r =>
    cases hc : st.current with
    | none =>
      refine ⟨?_, ?_⟩
      · intro u hu
        exact h.1 u (by simpa [clientStep, hc] using hu)
      · intro u hu
        simp only [clientStep, hc, Option.toList_some, List.mem_singleton] at hu
        subst hu
        exact ⟨[wireOf r], rfl, by simpa [eq_comm] using wireOf_ne_sessionUpdate r⟩
    | some t =>
      refine ⟨?_, ?_⟩
      · intro u hu
        exact h.1 u (by simpa [clientStep, hc] using hu)
      · intro u hu
        simp only [clientStep, hc, Option.toList_some, List.mem_singleton] at hu
        subst hu
        rcases h.2 t (by simp [hc]) with ⟨rest, rfl, hni⟩
        refine ⟨rest ++ [wireOf r], by simp, ?_⟩
        simp only [List.mem_append, List.mem_singleton]
        rintro (hm | hm)
        · exact hni hm
        · exact wireOf_ne_sessionUpdate r hm.symm

/-- The full client run keeps every per-connection trace well-formed. -/
theorem clientRun_goodTraces (evs : List ClientEvent) :
    goodTraces (clientRun evs) := by
  have step : ∀ st, goodTraces st → goodTraces (evs.foldl clientStep st) := by
    induction evs with
    | nil => intro st h; exact h
    | cons e es ih =>
      intro st h
      exact ih _ (clientStep_preserves_goodTraces st e h)
  refine step ⟨[], none⟩ ⟨?_, ?_⟩ <;> intro t ht <;> simp at ht

/-- C7: over any sequence of client requests and connection losses, every
connection's send trace — finished connections and the live one alike —
has the `session.update` configuration as its very first message, and no
ingest (`input_audio_buffer.append`), checkpoint
(`input_audio_buffer.commit`) or trigger (`response.create`) message is
ever sent on a connection before it. -/
theorem sessionUpdate_first_on_every_connection (evs : List ClientEvent)
    (t : List WireMsg) (ht : t ∈ allTraces (clientRun evs)) :
    sessionUpdateFirst t := by
  have h := clientRun_goodTraces evs
  simp only [allTraces, List.mem_append] at ht
  rcases ht with h1 | h2
  · exact h.1 t h1
  · exact h.2 t h2

/-- Witness for the session-update ordering: an append on a fresh
connection, a connection loss, then a commit on the reconnection; the
finished first connection's trace starts with `session.update`. -/
theorem sessionUpdate_first_witness :
    [WireMsg.sessionUpdate, WireMsg.appendMsg "a"] ∈
        allTraces (clientRun [ClientEvent.request (.appendAudio "a"),
          ClientEvent.connectionLost, ClientEvent.request .commitBuffer]) ∧
    sessionUpdateFirst [WireMsg.sessionUpdate, WireMsg.appendMsg "a"] :=
  ⟨by decide,
    sessionUpdate_first_on_every_connection
      [ClientEvent.request (.appendAudio "a"), ClientEvent.connectionLost,
        ClientEvent.request .commitBuffer]
      [WireMsg.sessionUpdate, WireMsg.appendMsg "a"] (by decide)⟩

/-- C9: if the source selection observed before some frame is cleared or
changed away from the selected source, while every earlier frame still saw
the selected source (and forwarded successfully), then `processAudio` stops
before that frame: it issues exactly the duty-cycle actions of the earlier
frames — no append for the offending frame or any later one, even if that
frame's sends would have failed — and returns successfully (`.ok`, the
`SourceClearedError` is caught, so no connection error is surfaced) with
the `sourceCleared` exit, after which the orchestrator's run loop returns
to waiting for a source. -/
theorem processAudio_source_cleared (sourceId : Nat) (s : DCState)
    (pre : List FrameInput) (g : FrameInput) (rest : List FrameInput)
    (hpre : ∀ f ∈ pre, f.selection = some sourceId ∧ f.sendOk = true)
    (hg : g.selection ≠ some sourceId) :
    processAudio sourceId s (pre ++ g :: rest) =
      .ok ((dcRunFrom s (pre.map FrameInput.len)).2,
        (dcRunFrom s (pre.map FrameInput.len)).1, .sourceCleared) := by
  have H : ∀ (l : List FrameInput) (st : DCState),
      (∀ f ∈ l, f.selection = some sourceId ∧ f.sendOk = true) →
      processAudio sourceId st (l ++ g :: rest) =
        .ok ((dcRunFrom st (l.map FrameInput.len)).2,
          (dcRunFrom st (l.map FrameInput.len)).1, .sourceCleared) := by
    intro l
    induction l with
    | nil =>
      intro st _
      simp only [List.nil_append, List.map_nil]
      unfold processAudio
      simp [hg, dcRunFrom]
    | cons f fs ih =>
      intro st hall
      have hf := hall f (List.mem_cons_self f fs)
      have hrec := ih (dcStep st f.len).1
        (fun x hx => hall x (List.mem_cons_of_mem f hx))
      simp only [List.cons_append, List.map_cons]
      unfold processAudio
      rw [if_neg (by simp [hf.1]), if_neg (by simp [hf.2])]
      simp only [hrec, dcRunFrom_cons]
  exact H pre s hpre

/-- Witness for the source-cleared theorem: one well-forwarded frame, then
a frame observing a cleared selection; the run stops with the first frame's
append only and a clean `sourceCleared` exit. -/
theorem processAudio_source_cleared_witness :
    (∀ f ∈ [(⟨some 0, 960, true⟩ : FrameInput)],
      f.selection = some 0 ∧ f.sendOk = true) ∧
    (⟨none, 960, true⟩ : FrameInput).selection ≠ some 0 ∧
    processAudio 0 ⟨0, 0⟩
        ([(⟨some 0, 960, true⟩ : FrameInput)] ++
          (⟨none, 960, true⟩ : FrameInput) :: [⟨some 0, 5, true⟩]) =
      .ok ((dcRunFrom ⟨0, 0⟩
            ([(⟨some 0, 960, true⟩ : FrameInput)].map FrameInput.len)).2,
        (dcRunFrom ⟨0, 0⟩
            ([(⟨some 0, 960, true⟩ : FrameInput)].map FrameInput.len)).1,
        .sourceCleared) :=
  ⟨by decide, by decide,
    processAudio_source_cleared 0 ⟨0, 0⟩ [⟨some 0, 960, true⟩]
      ⟨none, 960, true⟩ [⟨some 0, 5, true⟩] (by decide) (by decide)⟩

end RadioPipeline
